import Mathlib

/-!
# dsa-search-engine: corpus ingestion (`scraper.js`) and search (`index.js`)

A shallow embedding of the pure parts of the two programs and of the two stateful
routines the specification talks about (`loadProblems` on a file-system state, the
merge loop of the ingestion run), followed by the properties proved about them.

Modelling conventions.

* A JavaScript number is a finite IEEE-754 binary64 value, represented by the rational
  it denotes (`ℚ`), or `NaN`, or an absent value (`null`/`undefined`).  Every
  arithmetic operation of the source is the exact rational operation followed by
  `fl`, round-to-nearest-even to binary64 (gradual underflow included).  None of the
  modelled expressions can overflow, so infinities are not represented.
* A JavaScript array is a `List`; an in-place update is `List.set`.
* Library calls whose code is not part of the repository (`JSON.parse`, the
  `stopword` filter, the `natural` TF-IDF index, `Math.random`) are parameters of
  `search`.  For the property of blank queries, which the index decides, the
  stop-word filter and the index are also modelled from specification §4.4
  (`removeStopwordsBy`, `indexTerms`, `tfidfMeasure`, `indexedSearch`).
-/

namespace DsaSearch

/-! ## JavaScript numbers -/

/-- A JavaScript value used where a number is expected: absent (`null` or
`undefined`), `NaN`, or a finite number. -/
inductive JsNumber where
  | absent
  | nan
  | num (x : ℚ)
  deriving DecidableEq

/-- Nearest integer, ties to the even neighbour. -/
def roundHalfEven (x : ℚ) : ℤ :=
  let f := ⌊x⌋
  if x - f < 1 / 2 then f
  else if 1 / 2 < x - f then f + 1
  else if f % 2 = 0 then f else f + 1

/-- Binary exponent of the binade of `x ≥ 0`, not below the smallest normal exponent. -/
def binade (x : ℚ) : ℤ := max (Int.log 2 x) (-1022)

/-- Spacing of the binary64 numbers in the binade of `x` (53 significant bits). -/
def ulp (x : ℚ) : ℚ := (2 : ℚ) ^ (binade x - 52)

/-- Rounding of a non-negative rational to binary64. -/
def roundPos (x : ℚ) : ℚ := roundHalfEven (x / ulp x) * ulp x

/-- Rounding of an exact result to binary64, round-to-nearest-even. -/
def fl (x : ℚ) : ℚ := if x < 0 then -roundPos (-x) else roundPos x

/-- `Math.round`: the nearest integer, ties towards positive infinity. -/
def mathRound (x : ℚ) : ℤ := ⌊x + 1 / 2⌋

/-! ## JavaScript strings -/

/-- The characters matched by `\s` and removed by `String.prototype.trim`
(WhiteSpace and LineTerminator code points). -/
def isWhiteSpace (c : Char) : Bool :=
  let n := c.toNat
  n == 9 || n == 10 || n == 11 || n == 12 || n == 13 || n == 32 || n == 160 ||
  n == 5760 || (8192 ≤ n && n ≤ 8202) || n == 8232 || n == 8233 || n == 8239 ||
  n == 8287 || n == 12288 || n == 65279

/-- `s.trim()`. -/
def trim (s : String) : String :=
  String.mk ((s.data.dropWhile isWhiteSpace).reverse.dropWhile isWhiteSpace).reverse

/-- `s.toLowerCase()`, on the ASCII letters (characters outside ASCII are left as they
are; the handler only passes the lower-cased query on to the index). -/
def toLowerCase (s : String) : String := String.mk (s.data.map Char.toLower)

/-- Loop of `s.split(/\s+/)`: `cur` is the token being read, reversed; `inSep` tells
that the previous character belonged to a separator. -/
def splitWhitespaceLoop : List Char → List Char → Bool → List String
  | [], cur, _ => [String.mk cur.reverse]
  | c :: cs, cur, inSep =>
    if isWhiteSpace c then
      if inSep then splitWhitespaceLoop cs cur true
      else String.mk cur.reverse :: splitWhitespaceLoop cs [] true
    else splitWhitespaceLoop cs (c :: cur) false

/-- `s.split(/\s+/)`: the pieces between maximal runs of white space. -/
def splitWhitespace (s : String) : List String := splitWhitespaceLoop s.data [] false

/-- Loop of `s.split(",")`. -/
def splitCommaLoop : List Char → List Char → List String
  | [], cur => [String.mk cur.reverse]
  | c :: cs, cur =>
    if c.toNat = 44 then String.mk cur.reverse :: splitCommaLoop cs []
    else splitCommaLoop cs (c :: cur)

/-- `s.split(",")`. -/
def splitComma (s : String) : List String := splitCommaLoop s.data []

/-- `tokens.join(" ")`. -/
def joinSpace : List String → String
  | [] => ""
  | [a] => a
  | a :: b :: rest => a ++ " " ++ joinSpace (b :: rest)

/-! ## scraper.js -/

/-- The persisted record of one problem (specification §3); a field that a snapshot
entry lacks is `none` / `absent`. -/
structure Problem where
  source : Option String
  id : Option String
  title : Option String
  url : Option String
  description : Option String
  topics : Option (List String)
  difficultyRaw : JsNumber
  elo : JsNumber
  deriving DecidableEq

/-- `const OUTPUT_FILE = "problems.json"`. -/
def OUTPUT_FILE : String := "problems.json"

/-- `leetAcceptanceToElo(acceptancePct)` (scraper.js 60-65). -/
def leetAcceptanceToElo : JsNumber → ℤ
  | .num acceptancePct =>
    let rate := fl (max 0 (min 100 acceptancePct) / 100)
    mathRound (fl (800 + fl (fl (1 - rate) * 2700)))
  | _ => 2000

/-- `solvedCountToElo(solvedCount)` (scraper.js 67-75); the first test treats every
falsy value, `0` included, as a missing count. -/
def solvedCountToElo : JsNumber → ℤ
  | .num solvedCount =>
    if solvedCount = 0 then 1500
    else if solvedCount > 20000 then 1200
    else if solvedCount > 10000 then 1400
    else if solvedCount > 5000 then 1600
    else if solvedCount > 1000 then 2000
    else 2300
  | _ => 1500

/-- The part of the file system `loadProblems` touches: the content stored at each
path (`none`: no such file), the error code with which reading the snapshot fails for
a reason other than its absence (if it does), and whether `fs.rename` fails. -/
structure FileSystem where
  content : String → Option String
  readError : Option String
  renameFails : Bool

/-- `fs.readFile(path, "utf-8")`: the content, or the `code` of the error thrown. -/
def readFile (fs : FileSystem) (path : String) : Except String String :=
  match fs.readError with
  | some code => .error code
  | none =>
    match fs.content path with
    | some data => .ok data
    | none => .error "ENOENT"

/-- `fs.rename(oldPath, newPath)`: the new state, or `none` when the call throws. -/
def rename (fs : FileSystem) (oldPath newPath : String) : Option FileSystem :=
  if fs.renameFails then none
  else
    match fs.content oldPath with
    | none => none
    | some data =>
      some { fs with content := fun p =>
        if p = newPath then some data else if p = oldPath then none else fs.content p }

/-- `loadProblems()` (scraper.js 27-50): the value returned, or the code of the error
thrown, together with the file-system state it leaves.  `jsonParse` is `JSON.parse`
(`none`: a `SyntaxError`). -/
def loadProblems (jsonParse : String → Option (List Problem)) (fs : FileSystem) :
    Except String (List Problem) × FileSystem :=
  match readFile fs OUTPUT_FILE with
  | .ok data =>
    if trim data = "" then (.ok [], fs)
    else
      match jsonParse data with
      | some problems => (.ok problems, fs)
      | none =>
        match rename fs OUTPUT_FILE (OUTPUT_FILE ++ ".bak") with
        | some fs' => (.ok [], fs')
        | none => (.ok [], fs)
  | .error code => if code = "ENOENT" then (.ok [], fs) else (.error code, fs)

/-- Truthiness of `p.url`: present and not the empty string. -/
def truthyUrl (p : Problem) : Bool :=
  match p.url with
  | some u => u != ""
  | none => false

/-- The two variables of the merge loop: `allProblems` and the set `seen`. -/
structure MergeState where
  allProblems : List Problem
  seen : List (Option String)

/-- One iteration of `for (const p of newCollected)` (scraper.js 304-309); an
element of `newCollected` may be `null`. -/
def mergeStep (st : MergeState) (p : Option Problem) : MergeState :=
  match p with
  | some p =>
    if truthyUrl p && !(st.seen.contains p.url) then
      { allProblems := st.allProblems ++ [p], seen := st.seen ++ [p.url] }
    else st
  | none => st

/-- The merge of the ingestion run (scraper.js 301-309): `allProblems` after the loop. -/
def merge (existingProblems : List Problem) (newCollected : List (Option Problem)) :
    List Problem :=
  (newCollected.foldl mergeStep
    { allProblems := existingProblems, seen := existingProblems.map (fun p => p.url) }).allProblems

/-- The non-empty urls of a corpus, in corpus order. -/
def nonEmptyUrls (corpus : List Problem) : List (Option String) :=
  (corpus.filter truthyUrl).map (fun p => p.url)

/-- No two entries of the corpus share a non-empty url. -/
def UrlUnique (corpus : List Problem) : Prop := (nonEmptyUrls corpus).Nodup

/-! ## index.js -/

/-- An element of the response: `{ ...problems[i], relevance: measure }`. -/
structure SearchResult where
  problem : Problem
  relevance : ℚ
  deriving DecidableEq

/-- `[array[i], array[j]] = [array[j], array[i]]`. -/
def swap {α : Type} (array : List α) (i j : Nat) : List α :=
  match array[i]?, array[j]? with
  | some x, some y => (array.set i y).set j x
  | _, _ => array

/-- The loop of `shuffleArray`, from index `i` down to `1`; `random i` is the value of
`Math.floor(Math.random() * (i + 1))` drawn at index `i`, an index in `0..i`. -/
def shuffleLoop {α : Type} (random : (i : Nat) → Fin (i + 1)) : Nat → List α → List α
  | 0, array => array
  | i + 1, array => shuffleLoop random i (swap array (i + 1) (random (i + 1)).val)

/-- `shuffleArray(array)` (index.js 37-43). -/
def shuffleArray {α : Type} (random : (i : Nat) → Fin (i + 1)) (array : List α) : List α :=
  shuffleLoop random (array.length - 1) array

/-- `getDifficultyScore(problem)` (index.js 46-51), the bucket of an Elo value.
`problem.elo || 1500` replaces every falsy value, `0` included; `3500 - 800` is exact. -/
def getDifficultyScore (problem : Problem) : ℤ :=
  let elo : ℚ :=
    match problem.elo with
    | .num e => if e = 0 then 1500 else e
    | _ => 1500
  min (max (mathRound (fl (fl (fl (elo - 800) / (3500 - 800)) * 10))) 1) 10

/-- `req.query.difficulties ? req.query.difficulties.split(",").map(Number) : []`;
`toNumber` is the coercion `Number`. -/
def parseDifficulties (toNumber : String → JsNumber) (difficulties : Option String) :
    List JsNumber :=
  match difficulties with
  | none => []
  | some s => if s = "" then [] else (splitComma s).map toNumber

/-- `removeStopwords(query.split(/\s+/)).join(" ")`. -/
def tokenizeQuery (removeStopwords : List String → List String) (query : String) : String :=
  joinSpace (removeStopwords (splitWhitespace query))

/-- The callback of `tfidf.tfidfs` run over the documents `0, 1, ...` of the index,
which the start-up code registers one per problem, in corpus order: the results with a
positive measure. `measure doc i` is the measure the index gives document `i`. -/
def scoreResults (measure : String → Nat → ℚ) (problems : List Problem) (doc : String) :
    List SearchResult :=
  problems.enum.filterMap fun ip =>
    if 0 < measure doc ip.1 then some { problem := ip.2, relevance := measure doc ip.1 }
    else none

/-- `selectedDifficulties.includes(getDifficultyScore(result))`. -/
def passesFilter (selectedDifficulties : List JsNumber) (result : SearchResult) : Bool :=
  selectedDifficulties.contains (JsNumber.num (getDifficultyScore result.problem))

/-- The `/search` handler (index.js 54-84) after the parsing of `difficulties`:
the array passed to `res.json`. -/
def search (removeStopwords : List String → List String) (measure : String → Nat → ℚ)
    (problems : List Problem) (random : (i : Nat) → Fin (i + 1))
    (queryParam : Option String) (selectedDifficulties : List JsNumber) :
    List SearchResult :=
  let query := toLowerCase (queryParam.getD "")
  if query = "" then []
  else
    let searchResults := scoreResults measure problems (tokenizeQuery removeStopwords query)
    let filteredResults :=
      if selectedDifficulties.length > 0 then
        searchResults.filter (passesFilter selectedDifficulties)
      else searchResults
    shuffleArray random
      (filteredResults.mergeSort fun a b => decide (b.relevance ≤ a.relevance))

/-- The `/search` handler on the raw request parameters. -/
def searchHandler (toNumber : String → JsNumber) (removeStopwords : List String → List String)
    (measure : String → Nat → ℚ) (problems : List Problem)
    (random : (i : Nat) → Fin (i + 1)) (queryParam difficulties : Option String) :
    List SearchResult :=
  search removeStopwords measure problems random queryParam
    (parseDifficulties toNumber difficulties)

/-- The selection of all ten buckets, `difficulties=1,2,...,10`. -/
def fullSelection : List JsNumber :=
  [1, 2, 3, 4, 5, 6, 7, 8, 9, 10].map fun k : ℤ => JsNumber.num k

/-- Specification §4.5, steps 3 to 5: the documents with strictly positive relevance,
each with its relevance attached, that the bucket selection keeps (an empty selection
keeps all). -/
def specResults (measure : String → Nat → ℚ) (problems : List Problem) (doc : String)
    (selectedBuckets : List JsNumber) : List SearchResult :=
  problems.enum.filterMap fun ip =>
    if 0 < measure doc ip.1 ∧
        (selectedBuckets = [] ∨ JsNumber.num (getDifficultyScore ip.2) ∈ selectedBuckets) then
      some { problem := ip.2, relevance := measure doc ip.1 }
    else none

/-- A problem record that carries only an Elo value. -/
def problemWithElo (elo : JsNumber) : Problem :=
  { source := none, id := none, title := none, url := none, description := none,
    topics := none, difficultyRaw := JsNumber.absent, elo := elo }

/-- The value rounded by `Math.round` in `leetAcceptanceToElo`. -/
def leetRaw (p : ℚ) : ℚ :=
  fl (800 + fl (fl (1 - fl (max 0 (min 100 p) / 100)) * 2700))

/-- The value clamped by `getDifficultyScore`, as a function of the Elo after the
fallback. -/
def bucketRaw (elo : ℚ) : ℤ := mathRound (fl (fl (fl (elo - 800) / (3500 - 800)) * 10))

/-- The Elo value `getDifficultyScore` works with: `problem.elo || 1500`. -/
def eloOrDefault (problem : Problem) : ℚ :=
  match problem.elo with
  | .num e => if e = 0 then 1500 else e
  | _ => 1500

/-- A problem record that carries only a url. -/
def problemWithUrl (url : Option String) : Problem :=
  { source := none, id := none, title := none, url := url, description := none,
    topics := none, difficultyRaw := JsNumber.absent, elo := JsNumber.absent }

/-- A file system whose snapshot holds text that is not JSON, with no backup file yet. -/
def corruptSnapshot (renameFails : Bool) : FileSystem :=
  { content := fun p => if p = OUTPUT_FILE then some "not json" else none,
    readError := none,
    renameFails := renameFails }

/-- A `JSON.parse` that rejects every text. -/
def jsonRejects : String → Option (List Problem) := fun _ => none

/-- An index that gives measure 1 to every document unless the query document is
blank. -/
def unitMeasure : String → Nat → ℚ := fun doc _ => if doc.data.all isWhiteSpace then 0 else 1

/-- The text of a problem that the start-up code indexes (index.js 26-30):
`[title || "", description || "", (topics || []).join(" ")].join(" ").toLowerCase()`. -/
def textFields (problem : Problem) : String :=
  toLowerCase (joinSpace [problem.title.getD "", problem.description.getD "",
    joinSpace (problem.topics.getD [])])

/-- The string passed to `tfidf.addDocument` for a problem (index.js 32-33):
`removeStopwords(textFields.split(/\s+/)).join(" ")`. -/
def documentText (removeStopwords : List String → List String) (problem : Problem) : String :=
  joinSpace (removeStopwords (splitWhitespace (textFields problem)))

/-- Modelled from the spec: the stop-word filter `removeStopwords` of the `stopword`
package, which is not part of the repository.  Specification §4.4: "removing a fixed
stopword set"; `isStopword` tells which tokens belong to that set. -/
def removeStopwordsBy (isStopword : String → Bool) (tokens : List String) : List String :=
  tokens.filter fun t => !isStopword t

/-- Modelled from the spec: the token bag the TF-IDF index of the `natural` package
(not part of the repository) reads from a string it is handed, by `addDocument` or by
`tfidfs`.  Specification §4.4: the text is split on white space; a token is a
non-empty piece between white space. -/
def indexTerms (doc : String) : List String :=
  (splitWhitespace doc).filter fun t => t != ""

/-- Modelled from the spec: the term frequency of the `natural` index, the number of
occurrences of the term in the token bag of an indexed document (specification §4.4). -/
def termFrequency (term : String) (document : List String) : Nat := document.count term

/-- Modelled from the spec: the document frequency of the `natural` index, the number
of indexed documents that hold the term (specification §4.4, "inverse document
frequency computed over the indexed corpus"). -/
def documentFrequency (term : String) (documents : List (List String)) : Nat :=
  documents.countP fun d => d.contains term

/-- Modelled from the spec: `tfidf.tfidfs` of the `natural` package, the measure of
indexed document `i` for a query document.  Specification §4.4: term frequency times
inverse document frequency, summed over the tokens of the query document, each
occurrence counting.  `idfWeight n df` is the inverse-document-frequency weight of a
term held by `df` of the `n` indexed documents; it is a logarithm in the library and
is left arbitrary here. -/
def tfidfMeasure (idfWeight : Nat → Nat → ℚ) (documents : List (List String))
    (queryDoc : String) (i : Nat) : ℚ :=
  ((indexTerms queryDoc).map fun t =>
    (termFrequency t (documents.getD i []) : ℚ) *
      idfWeight documents.length (documentFrequency t documents)).sum

/-- The index the start-up code builds (index.js 21-34): one document per problem, in
corpus order, read from the string passed to `addDocument`. -/
def buildIndex (removeStopwords : List String → List String) (problems : List Problem) :
    List (List String) :=
  problems.map fun p => indexTerms (documentText removeStopwords p)

/-- The `/search` handler run against the index built from the corpus, with the
stop-word filter and the index as specification §4.4 describes them. -/
def indexedSearch (isStopword : String → Bool) (idfWeight : Nat → Nat → ℚ)
    (problems : List Problem) (random : (i : Nat) → Fin (i + 1))
    (queryParam : Option String) (selectedDifficulties : List JsNumber) :
    List SearchResult :=
  search (removeStopwordsBy isStopword)
    (tfidfMeasure idfWeight (buildIndex (removeStopwordsBy isStopword) problems))
    problems random queryParam selectedDifficulties

/-- A stop-word set of three words. -/
def sampleStopwords (t : String) : Bool := t == "the" || t == "a" || t == "of"

/-- A problem record with the text fields of the specification's end-to-end scenario. -/
def twoSumProblem : Problem :=
  { source := some "LeetCode", id := some "1", title := some "Two Sum",
    url := some "https://leetcode.com/problems/two-sum/",
    description := some "array hashmap lookup", topics := some ["Array", "Hash Table"],
    difficultyRaw := JsNumber.absent, elo := JsNumber.num 1200 }

/-- A string is blank when it is empty or consists of white space only. -/
def isBlank (s : String) : Bool := s.data.all isWhiteSpace

/-! ## Rounding to binary64 is monotone and exact on representable numbers -/

theorem roundHalfEven_bounds (x : ℚ) : ⌊x⌋ ≤ roundHalfEven x ∧ roundHalfEven x ≤ ⌊x⌋ + 1 := by
  unfold roundHalfEven
  simp only
  split_ifs <;> omega

theorem roundHalfEven_mono {x y : ℚ} (h : x ≤ y) : roundHalfEven x ≤ roundHalfEven y := by
  have hf : ⌊x⌋ ≤ ⌊y⌋ := Int.floor_mono h
  rcases hf.lt_or_eq with hlt | heq
  · have h1 := (roundHalfEven_bounds x).2
    have h2 := (roundHalfEven_bounds y).1
    omega
  · unfold roundHalfEven
    simp only
    rw [← heq]
    split_ifs <;> first | omega | (exfalso; linarith)

theorem roundHalfEven_intCast (n : ℤ) : roundHalfEven (n : ℚ) = n := by
  simp [roundHalfEven]

theorem ulp_pos (x : ℚ) : 0 < ulp x := by
  unfold ulp
  positivity

theorem roundPos_le_grid {x : ℚ} {n : ℤ} (h : x ≤ n * ulp x) : roundPos x ≤ n * ulp x := by
  have hu := ulp_pos x
  have h1 : x / ulp x ≤ (n : ℚ) := by rwa [div_le_iff₀ hu]
  have h2 := roundHalfEven_mono h1
  rw [roundHalfEven_intCast] at h2
  unfold roundPos
  have h3 : ((roundHalfEven (x / ulp x) : ℤ) : ℚ) ≤ (n : ℚ) := by exact_mod_cast h2
  exact mul_le_mul_of_nonneg_right h3 hu.le

theorem grid_le_roundPos {x : ℚ} {n : ℤ} (h : n * ulp x ≤ x) : n * ulp x ≤ roundPos x := by
  have hu := ulp_pos x
  have h1 : (n : ℚ) ≤ x / ulp x := by rwa [le_div_iff₀ hu]
  have h2 := roundHalfEven_mono h1
  rw [roundHalfEven_intCast] at h2
  unfold roundPos
  have h3 : (n : ℚ) ≤ ((roundHalfEven (x / ulp x) : ℤ) : ℚ) := by exact_mod_cast h2
  exact mul_le_mul_of_nonneg_right h3 hu.le

theorem scale_to_grid (m k j : ℤ) (h : j ≤ k) : ∃ n : ℤ, (m : ℚ) * (2 : ℚ) ^ k = n * (2 : ℚ) ^ j := by
  refine ⟨m * 2 ^ (k - j).toNat, ?_⟩
  have h2 : (2 : ℚ) ^ k = (2 : ℚ) ^ ((k - j).toNat : ℤ) * (2 : ℚ) ^ j := by
    rw [← zpow_add₀ (by norm_num : (2 : ℚ) ≠ 0), Int.toNat_of_nonneg (by omega)]
    congr 1
    ring
  rw [h2, zpow_natCast]
  push_cast
  ring

theorem roundPos_le_of_le {x : ℚ} {m k : ℤ} (hk : binade x - 52 ≤ k) (h : x ≤ m * (2 : ℚ) ^ k) :
    roundPos x ≤ m * (2 : ℚ) ^ k := by
  obtain ⟨n, hn⟩ := scale_to_grid m k (binade x - 52) hk
  rw [hn] at h ⊢
  exact roundPos_le_grid h

theorem le_roundPos_of_le {x : ℚ} {m k : ℤ} (hk : binade x - 52 ≤ k) (h : m * (2 : ℚ) ^ k ≤ x) :
    m * (2 : ℚ) ^ k ≤ roundPos x := by
  obtain ⟨n, hn⟩ := scale_to_grid m k (binade x - 52) hk
  rw [hn] at h ⊢
  exact grid_le_roundPos h

theorem roundPos_zero : roundPos 0 = 0 := by
  simp [roundPos, roundHalfEven]

theorem roundPos_nonneg {x : ℚ} (h : 0 ≤ x) : 0 ≤ roundPos x := by
  have := @grid_le_roundPos x 0 (by simpa using h)
  simpa using this

theorem roundPos_mono {x y : ℚ} (hx : 0 ≤ x) (h : x ≤ y) : roundPos x ≤ roundPos y := by
  rcases hx.lt_or_eq with hpos | hz
  · have hb : binade x ≤ binade y := max_le_max (Int.log_mono_right hpos h) le_rfl
    rcases hb.lt_or_eq with hlt | heq
    · have hylog : binade y = Int.log 2 y := by
        unfold binade at hlt ⊢
        have : (-1022 : ℤ) ≤ max (Int.log 2 x) (-1022) := le_max_right _ _
        exact max_eq_left (by
          by_contra hc
          rw [max_eq_right (by omega)] at hlt
          omega)
      have h1 : x ≤ ((1 : ℤ) : ℚ) * (2 : ℚ) ^ (binade x + 1) := by
        have := Int.lt_zpow_succ_log_self (b := 2) (by norm_num) x
        have hle : Int.log 2 x + 1 ≤ binade x + 1 := by
          have : Int.log 2 x ≤ binade x := le_max_left _ _
          omega
        have h2 : (2 : ℚ) ^ (Int.log 2 x + 1) ≤ (2 : ℚ) ^ (binade x + 1) :=
          zpow_le_zpow_right₀ (by norm_num) hle
        push_cast at this ⊢
        linarith
      have h2 : ((1 : ℤ) : ℚ) * (2 : ℚ) ^ (binade y) ≤ y := by
        have := Int.zpow_log_le_self (b := 2) (by norm_num) (lt_of_lt_of_le hpos h)
        rw [hylog]
        push_cast at this ⊢
        linarith
      have h3 := roundPos_le_of_le (by omega) h1
      have h4 := le_roundPos_of_le (by omega) h2
      have h5 : (2 : ℚ) ^ (binade x + 1) ≤ (2 : ℚ) ^ (binade y) :=
        zpow_le_zpow_right₀ (by norm_num) (by omega)
      push_cast at h3 h4
      linarith
    · have hu : ulp x = ulp y := by unfold ulp; rw [heq]
      unfold roundPos
      rw [hu]
      have hu0 := ulp_pos y
      have h1 : x / ulp y ≤ y / ulp y := div_le_div_of_nonneg_right h hu0.le
      have h2 : ((roundHalfEven (x / ulp y) : ℤ) : ℚ) ≤ ((roundHalfEven (y / ulp y) : ℤ) : ℚ) := by
        exact_mod_cast roundHalfEven_mono h1
      exact mul_le_mul_of_nonneg_right h2 hu0.le
  · rw [← hz, roundPos_zero]
    exact roundPos_nonneg (hz ▸ h)

theorem fl_mono {x y : ℚ} (h : x ≤ y) : fl x ≤ fl y := by
  unfold fl
  split_ifs with hx hy hy
  · have := roundPos_mono (x := -y) (y := -x) (by linarith) (by linarith)
    linarith
  · have h1 := roundPos_nonneg (x := -x) (by linarith)
    have h2 := roundPos_nonneg (x := y) (by linarith)
    linarith
  · exfalso; linarith
  · exact roundPos_mono (by linarith) h

theorem roundPos_exact {m k : ℤ} (hm0 : 0 ≤ m) (hm : m < 2 ^ 53) (hk : -1074 ≤ k) :
    roundPos (m * (2 : ℚ) ^ k) = m * (2 : ℚ) ^ k := by
  rcases hm0.lt_or_eq with hpos | hz
  · have hxpos : (0 : ℚ) < m * (2 : ℚ) ^ k := by
      have : (0 : ℚ) < m := by exact_mod_cast hpos
      positivity
    have hlt : (m : ℚ) * (2 : ℚ) ^ k < ((2 : ℕ) : ℚ) ^ (53 + k) := by
      rw [zpow_add₀ (by norm_num)]
      have h1 : (m : ℚ) < (2 : ℚ) ^ (53 : ℤ) := by
        rw [zpow_ofNat]
        exact_mod_cast hm
      have h2 : (0 : ℚ) < (2 : ℚ) ^ k := by positivity
      push_cast
      exact mul_lt_mul_of_pos_right h1 h2
    have hlog := (Int.lt_zpow_iff_log_lt (b := 2) (by norm_num) hxpos).1 hlt
    have hb : binade (m * (2 : ℚ) ^ k) - 52 ≤ k := by
      unfold binade
      have : max (Int.log 2 ((m : ℚ) * (2 : ℚ) ^ k)) (-1022) ≤ 52 + k := max_le (by omega) (by omega)
      omega
    exact le_antisymm (roundPos_le_of_le hb le_rfl) (le_roundPos_of_le hb le_rfl)
  · rw [← hz]
    simp [roundPos_zero]

theorem fl_exact {m k : ℤ} (hm : |m| < 2 ^ 53) (hk : -1074 ≤ k) :
    fl (m * (2 : ℚ) ^ k) = m * (2 : ℚ) ^ k := by
  have hp : (0 : ℚ) < (2 : ℚ) ^ k := by positivity
  rw [abs_lt] at hm
  unfold fl
  split_ifs with hneg
  · have hm0 : m < 0 := by
      by_contra hc
      have : (0 : ℚ) ≤ m := by exact_mod_cast (not_lt.1 hc)
      have : (0 : ℚ) ≤ m * (2 : ℚ) ^ k := by positivity
      linarith
    have := roundPos_exact (m := -m) (k := k) (by omega) (by omega) hk
    push_cast at this
    rw [show -((m : ℚ) * (2 : ℚ) ^ k) = -(m : ℚ) * (2 : ℚ) ^ k by ring, this]
    ring
  · have hm0 : 0 ≤ m := by
      by_contra hc
      have : (m : ℚ) < 0 := by exact_mod_cast (not_le.1 hc)
      have : (m : ℚ) * (2 : ℚ) ^ k < 0 := mul_neg_of_neg_of_pos this hp
      exact hneg this
    exact roundPos_exact hm0 (by omega) hk

theorem fl_intCast {n : ℤ} (hn : |n| < 2 ^ 53) : fl (n : ℚ) = n := by
  have := fl_exact (m := n) (k := 0) hn (by norm_num)
  simpa using this

theorem fl_natCast {n : ℕ} (hn : n < 2 ^ 53) : fl (n : ℚ) = n := by
  have h : |(n : ℤ)| < 2 ^ 53 := by
    rw [abs_of_nonneg (by positivity)]
    exact_mod_cast hn
  simpa using fl_intCast h

theorem fl_dyadic {m : ℤ} {j : ℕ} (hm : |m| < 2 ^ 53) (hj : j ≤ 1074) :
    fl ((m : ℚ) / 2 ^ j) = (m : ℚ) / 2 ^ j := by
  have h := fl_exact (m := m) (k := -(j : ℤ)) hm (by omega)
  rw [zpow_neg, zpow_natCast] at h
  simpa [div_eq_mul_inv] using h

theorem fl_between {x lo hi : ℚ} (hlo : fl lo = lo) (hhi : fl hi = hi) (h1 : lo ≤ x)
    (h2 : x ≤ hi) : lo ≤ fl x ∧ fl x ≤ hi := by
  constructor
  · rw [← hlo]
    exact fl_mono h1
  · rw [← hhi]
    exact fl_mono h2

theorem mathRound_mono {x y : ℚ} (h : x ≤ y) : mathRound x ≤ mathRound y := by
  unfold mathRound
  exact Int.floor_mono (by linarith)

theorem mathRound_intCast (n : ℤ) : mathRound (n : ℚ) = n := by
  unfold mathRound
  rw [Int.floor_eq_iff]
  constructor <;> linarith

/-! ## Difficulty normalisation -/

theorem leetAcceptanceToElo_num (p : ℚ) :
    leetAcceptanceToElo (JsNumber.num p) = mathRound (leetRaw p) := rfl

theorem leetRaw_anti {p q : ℚ} (h : p ≤ q) : leetRaw q ≤ leetRaw p := by
  unfold leetRaw
  apply fl_mono
  have h1 : fl (max 0 (min 100 p) / 100) ≤ fl (max 0 (min 100 q) / 100) := by
    apply fl_mono
    apply div_le_div_of_nonneg_right _ (by norm_num)
    exact max_le_max le_rfl (min_le_min le_rfl h)
  have h2 : fl (1 - fl (max 0 (min 100 q) / 100)) ≤ fl (1 - fl (max 0 (min 100 p) / 100)) :=
    fl_mono (by linarith)
  have h3 := fl_mono (mul_le_mul_of_nonneg_right h2 (by norm_num : (0 : ℚ) ≤ 2700))
  linarith

theorem leetRaw_bounds (p : ℚ) : 800 ≤ leetRaw p ∧ leetRaw p ≤ 3500 := by
  have f0 : fl 0 = 0 := by simpa using fl_natCast (n := 0) (by norm_num)
  have f1 : fl 1 = 1 := by simpa using fl_natCast (n := 1) (by norm_num)
  have f2700 : fl 2700 = 2700 := by simpa using fl_natCast (n := 2700) (by norm_num)
  have f800 : fl 800 = 800 := by simpa using fl_natCast (n := 800) (by norm_num)
  have f3500 : fl 3500 = 3500 := by simpa using fl_natCast (n := 3500) (by norm_num)
  have hc0 : (0 : ℚ) ≤ max 0 (min 100 p) := le_max_left _ _
  have hc1 : max 0 (min 100 p) ≤ (100 : ℚ) := max_le (by norm_num) (min_le_left _ _)
  obtain ⟨r0, r1⟩ := fl_between (x := max 0 (min 100 p) / 100) f0 f1
    (by positivity) (by rw [div_le_one (by norm_num)]; exact hc1)
  obtain ⟨s0, s1⟩ := fl_between (x := 1 - fl (max 0 (min 100 p) / 100)) f0 f1
    (by linarith) (by linarith)
  obtain ⟨t0, t1⟩ := fl_between (x := fl (1 - fl (max 0 (min 100 p) / 100)) * 2700) f0 f2700
    (by positivity) (by linarith)
  unfold leetRaw
  exact fl_between f800 f3500 (by linarith) (by linarith)

theorem getDifficultyScore_eq (problem : Problem) :
    getDifficultyScore problem = min (max (bucketRaw (eloOrDefault problem)) 1) 10 := rfl

theorem bucketRaw_mono {x y : ℚ} (h : x ≤ y) : bucketRaw x ≤ bucketRaw y := by
  unfold bucketRaw
  apply mathRound_mono
  apply fl_mono
  apply mul_le_mul_of_nonneg_right _ (by norm_num)
  apply fl_mono
  apply div_le_div_of_nonneg_right _ (by norm_num)
  exact fl_mono (by linarith)

theorem getDifficultyScore_range (problem : Problem) :
    1 ≤ getDifficultyScore problem ∧ getDifficultyScore problem ≤ 10 := by
  rw [getDifficultyScore_eq]
  constructor
  · exact le_min (le_max_right _ _) (by norm_num)
  · exact min_le_right _ _

theorem bucketRaw_800 : bucketRaw 800 = 0 := by
  have f0 : fl 0 = 0 := by simpa using fl_natCast (n := 0) (by norm_num)
  unfold bucketRaw
  norm_num [f0]
  simpa using mathRound_intCast 0

theorem bucketRaw_3500 : bucketRaw 3500 = 10 := by
  have f1 : fl 1 = 1 := by simpa using fl_natCast (n := 1) (by norm_num)
  have f10 : fl 10 = 10 := by simpa using fl_natCast (n := 10) (by norm_num)
  have f2700 : fl 2700 = 2700 := by simpa using fl_natCast (n := 2700) (by norm_num)
  unfold bucketRaw
  norm_num [f1, f10, f2700]
  simpa using mathRound_intCast 10

theorem bucketRaw_1500 : bucketRaw 1500 = 3 := by
  have f700 : fl 700 = 700 := by simpa using fl_natCast (n := 700) (by norm_num)
  have e1 : fl (1 / 4) = 1 / 4 := by
    simpa using fl_dyadic (m := 1) (j := 2) (by norm_num) (by norm_num)
  have e2 : fl (17 / 64) = 17 / 64 := by
    simpa using fl_dyadic (m := 17) (j := 6) (by norm_num) (by norm_num)
  have e3 : fl (5 / 2) = 5 / 2 := by
    simpa using fl_dyadic (m := 5) (j := 1) (by norm_num) (by norm_num)
  have e4 : fl (85 / 32) = 85 / 32 := by
    simpa using fl_dyadic (m := 85) (j := 5) (by norm_num) (by norm_num)
  obtain ⟨a1, a2⟩ := fl_between (x := (700 : ℚ) / (3500 - 800)) e1 e2 (by norm_num) (by norm_num)
  obtain ⟨b1, b2⟩ := fl_between (x := fl ((700 : ℚ) / (3500 - 800)) * 10) e3 e4
    (by linarith) (by linarith)
  unfold bucketRaw mathRound
  rw [show (1500 : ℚ) - 800 = 700 by norm_num, f700, Int.floor_eq_iff]
  constructor
  · push_cast; linarith
  · push_cast; linarith

theorem bucketRaw_one_le : bucketRaw 1 ≤ 0 := by
  have f0 : fl 0 = 0 := by simpa using fl_natCast (n := 0) (by norm_num)
  have h1 : fl ((1 : ℚ) - 800) ≤ 0 :=
    le_trans (fl_mono (by norm_num)) (le_of_eq f0)
  have h2 : fl (fl ((1 : ℚ) - 800) / (3500 - 800)) ≤ 0 :=
    le_trans (fl_mono (div_nonpos_of_nonpos_of_nonneg h1 (by norm_num))) (le_of_eq f0)
  have h3 : fl (fl (fl ((1 : ℚ) - 800) / (3500 - 800)) * 10) ≤ 0 :=
    le_trans (fl_mono (by linarith)) (le_of_eq f0)
  unfold bucketRaw mathRound
  have : ⌊fl (fl (fl ((1 : ℚ) - 800) / (3500 - 800)) * 10) + 1 / 2⌋ < 1 := by
    rw [Int.floor_lt]
    push_cast
    linarith
  omega

/-- C3 (as amended): for all solved counts `1 ≤ a ≤ b`, `solvedCountToElo b ≤
solvedCountToElo a`, the value is one of 1200, 1400, 1600, 2000, 2300, and it follows
the thresholds `>20000 → 1200`, `>10000 → 1400`, `>5000 → 1600`, `>1000 → 2000`,
else `2300`. -/
theorem solvedCountToElo_positive (a b : ℕ) (ha : 1 ≤ a) (hab : a ≤ b) :
    solvedCountToElo (JsNumber.num b) ≤ solvedCountToElo (JsNumber.num a) ∧
    solvedCountToElo (JsNumber.num a) ∈ ({1200, 1400, 1600, 2000, 2300} : Set ℤ) ∧
    solvedCountToElo (JsNumber.num a) =
      (if 20000 < a then 1200 else if 10000 < a then 1400 else if 5000 < a then 1600
       else if 1000 < a then 2000 else 2300) := by
  have hb : 1 ≤ b := le_trans ha hab
  have key : ∀ n : ℕ, 1 ≤ n → solvedCountToElo (JsNumber.num n) =
      (if 20000 < n then 1200 else if 10000 < n then 1400 else if 5000 < n then 1600
       else if 1000 < n then 2000 else 2300) := by
    intro n hn
    have h0 : (n : ℚ) ≠ 0 := by
      have : 0 < n := hn
      positivity
    simp only [solvedCountToElo, h0, if_false, gt_iff_lt]
    have e1 : ((20000 : ℚ) < n) ↔ 20000 < n := by exact_mod_cast Iff.rfl
    have e2 : ((10000 : ℚ) < n) ↔ 10000 < n := by exact_mod_cast Iff.rfl
    have e3 : ((5000 : ℚ) < n) ↔ 5000 < n := by exact_mod_cast Iff.rfl
    have e4 : ((1000 : ℚ) < n) ↔ 1000 < n := by exact_mod_cast Iff.rfl
    simp only [e1, e2, e3, e4]
  rw [key a ha, key b hb]
  refine ⟨?_, ?_, rfl⟩
  · split_ifs <;> omega
  · simp only [Set.mem_insert_iff, Set.mem_singleton_iff]
    split_ifs <;> norm_num

/-- Witness of C3 at the counts 1500 and 12000. -/
theorem solvedCountToElo_positive_witness :
    solvedCountToElo (JsNumber.num (12000 : ℕ)) ≤ solvedCountToElo (JsNumber.num (1500 : ℕ)) ∧
    solvedCountToElo (JsNumber.num (1500 : ℕ)) = 2000 :=
  ⟨(solvedCountToElo_positive 1500 12000 (by decide) (by decide)).1,
   by simpa using (solvedCountToElo_positive 1500 12000 (by decide) (by decide)).2.2⟩

/-- C3 as stated fails at the count 0: the code returns the default 1500 there, which
is none of the five values, and the count 1 gets the larger value 2300. -/
theorem solvedCountToElo_zero_counterexample :
    solvedCountToElo (JsNumber.num (0 : ℕ)) = 1500 ∧
    solvedCountToElo (JsNumber.num (1 : ℕ)) = 2300 ∧
    ¬ (solvedCountToElo (JsNumber.num (1 : ℕ)) ≤ solvedCountToElo (JsNumber.num (0 : ℕ))) ∧
    solvedCountToElo (JsNumber.num (0 : ℕ)) ∉ ({1200, 1400, 1600, 2000, 2300} : Set ℤ) := by
  have h0 : solvedCountToElo (JsNumber.num (0 : ℕ)) = 1500 := by simp [solvedCountToElo]
  have h1 : solvedCountToElo (JsNumber.num (1 : ℕ)) = 2300 := by
    simp only [solvedCountToElo]
    norm_num
  refine ⟨h0, h1, ?_, ?_⟩
  · rw [h0, h1]; norm_num
  · rw [h0]; simp

/-- C4: for acceptance percentages `p ≤ q` (in particular all of `[0, 100]`),
`800 ≤ leetAcceptanceToElo q ≤ leetAcceptanceToElo p ≤ 3500`. -/
theorem leetAcceptanceToElo_antitone_range (p q : ℚ) (hpq : p ≤ q) :
    800 ≤ leetAcceptanceToElo (JsNumber.num q) ∧
    leetAcceptanceToElo (JsNumber.num q) ≤ leetAcceptanceToElo (JsNumber.num p) ∧
    leetAcceptanceToElo (JsNumber.num p) ≤ 3500 := by
  rw [leetAcceptanceToElo_num, leetAcceptanceToElo_num]
  refine ⟨?_, mathRound_mono (leetRaw_anti hpq), ?_⟩
  · have h := mathRound_mono (leetRaw_bounds q).1
    have e := mathRound_intCast 800
    push_cast at e
    rwa [e] at h
  · have h := mathRound_mono (leetRaw_bounds p).2
    have e := mathRound_intCast 3500
    push_cast at e
    rwa [e] at h

/-- Witness of C4 at the percentages 25 and 75. -/
theorem leetAcceptanceToElo_antitone_range_witness :
    (25 : ℚ) ≤ 75 ∧
    800 ≤ leetAcceptanceToElo (JsNumber.num 75) ∧
    leetAcceptanceToElo (JsNumber.num 75) ≤ leetAcceptanceToElo (JsNumber.num 25) ∧
    leetAcceptanceToElo (JsNumber.num 25) ≤ 3500 :=
  ⟨by norm_num, leetAcceptanceToElo_antitone_range 25 75 (by norm_num)⟩

/-- C5 (as amended): for problems whose Elo values are non-zero integers `a ≤ b`,
`1 ≤ getDifficultyScore(a) ≤ getDifficultyScore(b) ≤ 10`; the score of every problem is
an integer in `[1, 10]`; the score of Elo 800 is 1 and the score of Elo 3500 is 10. -/
theorem getDifficultyScore_monotone_nonzero (P Q : Problem) (a b : ℤ)
    (hP : P.elo = JsNumber.num a) (hQ : Q.elo = JsNumber.num b)
    (ha : a ≠ 0) (hb : b ≠ 0) (hab : a ≤ b) :
    (1 ≤ getDifficultyScore P ∧ getDifficultyScore P ≤ getDifficultyScore Q ∧
      getDifficultyScore Q ≤ 10) ∧
    (∀ R : Problem, 1 ≤ getDifficultyScore R ∧ getDifficultyScore R ≤ 10) ∧
    getDifficultyScore (problemWithElo (JsNumber.num 800)) = 1 ∧
    getDifficultyScore (problemWithElo (JsNumber.num 3500)) = 10 := by
  have eP : eloOrDefault P = a := by
    have : (a : ℚ) ≠ 0 := by exact_mod_cast ha
    simp [eloOrDefault, hP, this]
  have eQ : eloOrDefault Q = b := by
    have : (b : ℚ) ≠ 0 := by exact_mod_cast hb
    simp [eloOrDefault, hQ, this]
  refine ⟨⟨(getDifficultyScore_range P).1, ?_, (getDifficultyScore_range Q).2⟩,
    getDifficultyScore_range, ?_, ?_⟩
  · rw [getDifficultyScore_eq, getDifficultyScore_eq, eP, eQ]
    have h : bucketRaw a ≤ bucketRaw b := bucketRaw_mono (by exact_mod_cast hab)
    exact min_le_min (max_le_max h le_rfl) le_rfl
  · have e : eloOrDefault (problemWithElo (JsNumber.num 800)) = 800 := by
      simp [eloOrDefault, problemWithElo]
    rw [getDifficultyScore_eq, e, bucketRaw_800]
    rfl
  · have e : eloOrDefault (problemWithElo (JsNumber.num 3500)) = 3500 := by
      simp [eloOrDefault, problemWithElo]
    rw [getDifficultyScore_eq, e, bucketRaw_3500]
    rfl

/-- Witness of C5 at the Elo values 1200 and 3000. -/
theorem getDifficultyScore_monotone_nonzero_witness :
    (1200 : ℤ) ≤ 3000 ∧
    getDifficultyScore (problemWithElo (JsNumber.num 1200)) ≤
      getDifficultyScore (problemWithElo (JsNumber.num 3000)) :=
  ⟨by decide,
   (getDifficultyScore_monotone_nonzero (problemWithElo (JsNumber.num 1200))
      (problemWithElo (JsNumber.num 3000)) 1200 3000 (by simp [problemWithElo])
      (by simp [problemWithElo]) (by decide) (by decide) (by decide)).1.2.1⟩

/-- C5 as stated fails at the integers 0 ≤ 1: an Elo of 0 is replaced by the fallback
1500 and scores 3, an Elo of 1 scores 1. -/
theorem getDifficultyScore_zero_counterexample :
    getDifficultyScore (problemWithElo (JsNumber.num 0)) = 3 ∧
    getDifficultyScore (problemWithElo (JsNumber.num 1)) = 1 ∧
    ¬ (getDifficultyScore (problemWithElo (JsNumber.num 0)) ≤
        getDifficultyScore (problemWithElo (JsNumber.num 1))) := by
  have h0 : getDifficultyScore (problemWithElo (JsNumber.num 0)) = 3 := by
    have e : eloOrDefault (problemWithElo (JsNumber.num 0)) = 1500 := by
      simp [eloOrDefault, problemWithElo]
    rw [getDifficultyScore_eq, e, bucketRaw_1500]
    rfl
  have h1 : getDifficultyScore (problemWithElo (JsNumber.num 1)) = 1 := by
    have e : eloOrDefault (problemWithElo (JsNumber.num 1)) = 1 := by
      simp [eloOrDefault, problemWithElo]
    rw [getDifficultyScore_eq, e]
    have := bucketRaw_one_le
    rw [max_eq_right (by omega)]
    rfl
  refine ⟨h0, h1, ?_⟩
  rw [h0, h1]
  norm_num

/-! ## The merge loop -/

theorem contains_eq_false_iff {α : Type} [BEq α] [LawfulBEq α] (l : List α) (a : α) :
    l.contains a = false ↔ a ∉ l := by
  simp

theorem mergeStep_some (st : MergeState) (q : Problem) :
    mergeStep st (some q) =
      if truthyUrl q && !(st.seen.contains q.url) then
        MergeState.mk (st.allProblems ++ [q]) (st.seen ++ [q.url])
      else st := rfl

theorem mergeStep_seen_eq (st : MergeState) (p : Option Problem)
    (h : st.seen = st.allProblems.map (fun p => p.url)) :
    (mergeStep st p).seen = (mergeStep st p).allProblems.map (fun p => p.url) := by
  cases p with
  | none => exact h
  | some q =>
    rw [mergeStep_some]
    split_ifs
    · simp [h]
    · exact h

theorem foldl_mergeStep_seen_eq (B : List (Option Problem)) :
    ∀ st : MergeState, st.seen = st.allProblems.map (fun p => p.url) →
      (B.foldl mergeStep st).seen = (B.foldl mergeStep st).allProblems.map (fun p => p.url) := by
  induction B with
  | nil => intro st h; exact h
  | cons p B ih =>
    intro st h
    exact ih (mergeStep st p) (mergeStep_seen_eq st p h)

theorem mergeStep_seen_subset (st : MergeState) (p : Option Problem) :
    st.seen ⊆ (mergeStep st p).seen := by
  cases p with
  | none => exact List.Subset.refl _
  | some q =>
    rw [mergeStep_some]
    split_ifs
    · exact List.subset_append_left _ _
    · exact List.Subset.refl _

theorem foldl_mergeStep_seen_subset (B : List (Option Problem)) :
    ∀ st : MergeState, st.seen ⊆ (B.foldl mergeStep st).seen := by
  induction B with
  | nil => intro st; exact List.Subset.refl _
  | cons p B ih =>
    intro st
    exact List.Subset.trans (mergeStep_seen_subset st p) (ih (mergeStep st p))

theorem mergeStep_absorbs (st : MergeState) (q : Problem) (hq : truthyUrl q = true) :
    q.url ∈ (mergeStep st (some q)).seen := by
  rw [mergeStep_some]
  split_ifs with hc
  · simp
  · simp only [hq, Bool.true_and, Bool.not_eq_true', Bool.not_eq_false] at hc
    simpa using hc

theorem foldl_mergeStep_absorbs (B : List (Option Problem)) :
    ∀ (st : MergeState) (q : Problem), some q ∈ B → truthyUrl q = true →
      q.url ∈ (B.foldl mergeStep st).seen := by
  induction B with
  | nil => intro st q hm; simp at hm
  | cons p B ih =>
    intro st q hm hq
    rcases List.mem_cons.1 hm with hp | hB
    · subst hp
      exact foldl_mergeStep_seen_subset B _ (mergeStep_absorbs st q hq)
    · exact ih (mergeStep st p) q hB hq

theorem foldl_mergeStep_fixed (B : List (Option Problem)) :
    ∀ st : MergeState, (∀ q : Problem, some q ∈ B → truthyUrl q = true → q.url ∈ st.seen) →
      B.foldl mergeStep st = st := by
  induction B with
  | nil => intro st _; rfl
  | cons p B ih =>
    intro st h
    have hstep : mergeStep st p = st := by
      cases p with
      | none => rfl
      | some q =>
        rw [mergeStep_some]
        split_ifs with hc
        · exfalso
          simp only [Bool.and_eq_true, Bool.not_eq_true'] at hc
          exact (contains_eq_false_iff _ _).1 hc.2 (h q (List.mem_cons_self _ _) hc.1)
        · rfl
    rw [List.foldl_cons, hstep]
    exact ih st (fun q hm hq => h q (List.mem_cons_of_mem _ hm) hq)

theorem nonEmptyUrls_subset (corpus : List Problem) :
    nonEmptyUrls corpus ⊆ corpus.map (fun p => p.url) := by
  intro u hu
  simp only [nonEmptyUrls, List.mem_map, List.mem_filter] at hu
  obtain ⟨p, ⟨hp, _⟩, rfl⟩ := hu
  exact List.mem_map_of_mem _ hp

theorem mergeStep_urlUnique (st : MergeState) (p : Option Problem)
    (h : st.seen = st.allProblems.map (fun p => p.url)) (hu : UrlUnique st.allProblems) :
    UrlUnique (mergeStep st p).allProblems := by
  cases p with
  | none => exact hu
  | some q =>
    rw [mergeStep_some]
    split_ifs with hc
    · simp only [Bool.and_eq_true, Bool.not_eq_true'] at hc
      obtain ⟨hq, hnot⟩ := hc
      replace hnot := (contains_eq_false_iff _ _).1 hnot
      have hnew : q.url ∉ nonEmptyUrls st.allProblems := by
        intro hm
        apply hnot
        rw [h]
        exact nonEmptyUrls_subset _ hm
      unfold UrlUnique at hu ⊢
      have e : nonEmptyUrls (st.allProblems ++ [q]) = nonEmptyUrls st.allProblems ++ [q.url] := by
        simp [nonEmptyUrls, List.filter_append, hq]
      rw [e]
      rw [List.nodup_append]
      refine ⟨hu, List.nodup_singleton _, ?_⟩
      intro u hu1 hu2
      rw [List.mem_singleton] at hu2
      subst hu2
      exact hnew hu1
    · exact hu

theorem foldl_mergeStep_urlUnique (B : List (Option Problem)) :
    ∀ st : MergeState, st.seen = st.allProblems.map (fun p => p.url) →
      UrlUnique st.allProblems → UrlUnique (B.foldl mergeStep st).allProblems := by
  induction B with
  | nil => intro st _ hu; exact hu
  | cons p B ih =>
    intro st h hu
    exact ih (mergeStep st p) (mergeStep_seen_eq st p h) (mergeStep_urlUnique st p h hu)

/-- C1: merging the same incoming sequence `B` a second time leaves the corpus as the
first merge produced it, entry for entry and in the same order. -/
theorem merge_idempotent (A : List Problem) (B : List (Option Problem)) :
    merge (merge A B) B = merge A B := by
  have hinv := foldl_mergeStep_seen_eq B
    { allProblems := A, seen := A.map (fun p => p.url) } rfl
  have hstate : ({ allProblems := merge A B, seen := (merge A B).map (fun p => p.url) } :
      MergeState) = B.foldl mergeStep { allProblems := A, seen := A.map (fun p => p.url) } := by
    unfold merge
    rw [← hinv]
  have hfix := foldl_mergeStep_fixed B
    (B.foldl mergeStep { allProblems := A, seen := A.map (fun p => p.url) })
    (fun q hm hq => foldl_mergeStep_absorbs B _ q hm hq)
  show (B.foldl mergeStep (MergeState.mk (merge A B)
    ((merge A B).map (fun p => p.url)))).allProblems = merge A B
  rw [hstate, hfix]
  rfl

/-- C2: if no two entries of the existing corpus share a non-empty url, no two entries
of the merged corpus do, whatever the incoming sequence repeats. -/
theorem merge_urlUnique (A : List Problem) (B : List (Option Problem)) (hA : UrlUnique A) :
    UrlUnique (merge A B) :=
  foldl_mergeStep_urlUnique B { allProblems := A, seen := A.map (fun p => p.url) } rfl hA

/-! ## The shuffle and the search handler -/

theorem swap_perm {α : Type} [DecidableEq α] (l : List α) (i j : Nat) :
    (swap l i j).Perm l := by
  unfold swap
  cases hi : l[i]? with
  | none => exact List.Perm.refl _
  | some x =>
    cases hj : l[j]? with
    | none => exact List.Perm.refl _
    | some y =>
      obtain ⟨hil, hix⟩ := List.getElem?_eq_some_iff.1 hi
      obtain ⟨hjl, hjy⟩ := List.getElem?_eq_some_iff.1 hj
      show ((l.set i y).set j x).Perm l
      rw [List.perm_iff_count]
      intro a
      have hj2 : j < (l.set i y).length := by simpa using hjl
      have hget : (l.set i y)[j] = y := by
        rw [List.getElem_set]
        split_ifs
        · rfl
        · exact hjy
      rw [List.count_set _ _ _ _ hj2, List.count_set _ _ _ _ hil, hget, hix]
      have hx : x ∈ l := hix ▸ List.getElem_mem hil
      have hc : (if (x == a) = true then 1 else 0) ≤ l.count a := by
        split_ifs with h
        · have : x = a := by simpa using h
          subst this
          exact List.one_le_count_iff.2 hx
        · exact Nat.zero_le _
      split_ifs at hc ⊢ <;> omega

theorem shuffleLoop_perm {α : Type} [DecidableEq α] (random : (i : Nat) → Fin (i + 1))
    (n : Nat) : ∀ l : List α, (shuffleLoop random n l).Perm l := by
  induction n with
  | zero => intro l; exact List.Perm.refl _
  | succ n ih =>
    intro l
    exact (ih _).trans (swap_perm l (n + 1) (random (n + 1)).val)

theorem shuffleArray_perm {α : Type} [DecidableEq α] (random : (i : Nat) → Fin (i + 1))
    (l : List α) : (shuffleArray random l).Perm l :=
  shuffleLoop_perm random (l.length - 1) l

theorem specResults_eq (measure : String → Nat → ℚ) (problems : List Problem) (doc : String)
    (sel : List JsNumber) :
    specResults measure problems doc sel =
      if sel.length > 0 then (scoreResults measure problems doc).filter (passesFilter sel)
      else scoreResults measure problems doc := by
  unfold specResults scoreResults
  split_ifs with h
  · have hne : sel ≠ [] := by
      intro h0
      simp [h0] at h
    rw [List.filter_filterMap]
    apply List.filterMap_congr
    intro ip _
    by_cases hm : 0 < measure doc ip.1
    · by_cases hs : JsNumber.num (getDifficultyScore ip.2) ∈ sel
      · simp [hm, hs, hne, passesFilter, Option.filter]
      · simp [hm, hs, hne, passesFilter, Option.filter]
    · simp [hm]
  · have h0 : sel = [] := by
      cases sel with
      | nil => rfl
      | cons a t => simp at h
    simp [h0]

theorem search_of_empty (removeStopwords : List String → List String)
    (measure : String → Nat → ℚ) (problems : List Problem) (random : (i : Nat) → Fin (i + 1))
    (queryParam : Option String) (sel : List JsNumber)
    (h : toLowerCase (queryParam.getD "") = "") :
    search removeStopwords measure problems random queryParam sel = [] := by
  simp [search, h]

theorem search_perm (removeStopwords : List String → List String)
    (measure : String → Nat → ℚ) (problems : List Problem) (random : (i : Nat) → Fin (i + 1))
    (queryParam : Option String) (sel : List JsNumber)
    (h : toLowerCase (queryParam.getD "") ≠ "") :
    (search removeStopwords measure problems random queryParam sel).Perm
      (specResults measure problems
        (tokenizeQuery removeStopwords (toLowerCase (queryParam.getD ""))) sel) := by
  rw [specResults_eq]
  simp only [search, h, if_false]
  exact (shuffleArray_perm random _).trans (List.mergeSort_perm _ _)

theorem mem_specResults {measure : String → Nat → ℚ} {problems : List Problem} {doc : String}
    {sel : List JsNumber} {r : SearchResult} (h : r ∈ specResults measure problems doc sel) :
    ∃ i : Nat, problems[i]? = some r.problem ∧ r.relevance = measure doc i ∧
      0 < measure doc i ∧
      (sel = [] ∨ JsNumber.num (getDifficultyScore r.problem) ∈ sel) := by
  unfold specResults at h
  rw [List.mem_filterMap] at h
  obtain ⟨ip, hip, hr⟩ := h
  split_ifs at hr with hc
  · simp only [Option.some.injEq] at hr
    subst hr
    exact ⟨ip.1, List.mem_enum_iff_getElem?.1 hip, rfl, hc.1, hc.2⟩

theorem mem_search {removeStopwords : List String → List String}
    {measure : String → Nat → ℚ} {problems : List Problem} {random : (i : Nat) → Fin (i + 1)}
    {queryParam : Option String} {sel : List JsNumber} {r : SearchResult}
    (h : r ∈ search removeStopwords measure problems random queryParam sel) :
    r ∈ specResults measure problems
      (tokenizeQuery removeStopwords (toLowerCase (queryParam.getD ""))) sel := by
  by_cases hq : toLowerCase (queryParam.getD "") = ""
  · rw [search_of_empty _ _ _ _ _ _ hq] at h
    simp at h
  · exact (search_perm removeStopwords measure problems random queryParam sel hq).mem_iff.1 h

theorem passesFilter_fullSelection (r : SearchResult) : passesFilter fullSelection r = true := by
  obtain ⟨h1, h2⟩ := getDifficultyScore_range r.problem
  unfold passesFilter
  generalize getDifficultyScore r.problem = k at h1 h2
  interval_cases k <;> simp [fullSelection]

/-- C6: with a non-empty selection of buckets, every element of the response has its
difficulty score among the selected values, for every corpus, query and shuffle. -/
theorem search_results_in_selected_buckets (removeStopwords : List String → List String)
    (measure : String → Nat → ℚ) (problems : List Problem) (random : (i : Nat) → Fin (i + 1))
    (queryParam : Option String) (sel : List JsNumber) (hsel : sel ≠ []) :
    ∀ r ∈ search removeStopwords measure problems random queryParam sel,
      JsNumber.num (getDifficultyScore r.problem) ∈ sel := by
  intro r hr
  obtain ⟨_, _, _, _, hs⟩ := mem_specResults (mem_search hr)
  rcases hs with h0 | hs
  · exact absurd h0 hsel
  · exact hs

/-- C7: every returned result has relevance `> 0` and is an indexed document carrying
the measure the index gave it; when the handler scores the query (it is not the empty
string), the response is a permutation of the positively scored documents that the
difficulty filter keeps. -/
theorem search_is_permutation_of_scored (removeStopwords : List String → List String)
    (measure : String → Nat → ℚ) (problems : List Problem) (random : (i : Nat) → Fin (i + 1))
    (queryParam : Option String) (sel : List JsNumber) :
    (∀ r ∈ search removeStopwords measure problems random queryParam sel,
      0 < r.relevance ∧
      ∃ i : Nat, problems[i]? = some r.problem ∧
        r.relevance =
          measure (tokenizeQuery removeStopwords (toLowerCase (queryParam.getD ""))) i) ∧
    (toLowerCase (queryParam.getD "") ≠ "" →
      (search removeStopwords measure problems random queryParam sel).Perm
        (specResults measure problems
          (tokenizeQuery removeStopwords (toLowerCase (queryParam.getD ""))) sel)) := by
  refine ⟨?_, search_perm removeStopwords measure problems random queryParam sel⟩
  intro r hr
  obtain ⟨i, hi, hrel, hpos, _⟩ := mem_specResults (mem_search hr)
  exact ⟨hrel ▸ hpos, i, hi, hrel⟩

/-- C8: for every corpus, query and pair of shuffles, the response with no bucket
selected and the response with all of 1..10 selected hold the same results with the
same relevance (one is a permutation of the other). -/
theorem search_empty_selection_eq_full (removeStopwords : List String → List String)
    (measure : String → Nat → ℚ) (problems : List Problem)
    (random₁ random₂ : (i : Nat) → Fin (i + 1)) (queryParam : Option String) :
    (search removeStopwords measure problems random₁ queryParam []).Perm
      (search removeStopwords measure problems random₂ queryParam fullSelection) := by
  by_cases hq : toLowerCase (queryParam.getD "") = ""
  · rw [search_of_empty _ _ _ _ _ _ hq, search_of_empty _ _ _ _ _ _ hq]
  · refine (search_perm _ _ _ random₁ _ _ hq).trans
      (List.Perm.trans ?_ (search_perm _ _ _ random₂ _ _ hq).symm)
    rw [specResults_eq, specResults_eq]
    have hfull : fullSelection.length > 0 := by simp [fullSelection]
    simp only [hfull, if_true, List.length_nil, gt_iff_lt, lt_self_iff_false, if_false]
    rw [List.filter_eq_self.2 (fun r _ => passesFilter_fullSelection r)]

/-! ## Blank queries -/

theorem toLower_of_isWhiteSpace {c : Char} (h : isWhiteSpace c = true) : c.toLower = c := by
  unfold isWhiteSpace at h
  simp only [Bool.or_eq_true, Bool.and_eq_true, beq_iff_eq, decide_eq_true_eq] at h
  unfold Char.toLower
  simp only
  rw [if_neg]
  omega

theorem isBlank_iff (s : String) : isBlank s = true ↔ ∀ c ∈ s.data, isWhiteSpace c = true := by
  simp [isBlank]

theorem toLowerCase_of_isBlank {s : String} (h : isBlank s = true) : toLowerCase s = s := by
  rw [isBlank_iff] at h
  unfold toLowerCase
  have : s.data.map Char.toLower = s.data := by
    conv_rhs => rw [← List.map_id s.data]
    exact List.map_congr_left (fun c hc => toLower_of_isWhiteSpace (h c hc))
  rw [this]

theorem splitWhitespaceLoop_blank (cs : List Char) (h : ∀ c ∈ cs, isWhiteSpace c = true) :
    ∀ (cur : List Char) (inSep : Bool), ∀ t ∈ splitWhitespaceLoop cs cur inSep,
      t = String.mk cur.reverse ∨ t = "" := by
  induction cs with
  | nil =>
    intro cur inSep t ht
    simp only [splitWhitespaceLoop, List.mem_singleton] at ht
    exact Or.inl ht
  | cons c cs ih =>
    intro cur inSep t ht
    have hc : isWhiteSpace c = true := h c (List.mem_cons_self _ _)
    have hcs : ∀ c ∈ cs, isWhiteSpace c = true := fun d hd => h d (List.mem_cons_of_mem _ hd)
    simp only [splitWhitespaceLoop, hc, if_true] at ht
    split_ifs at ht
    · exact ih hcs cur true t ht
    · rcases List.mem_cons.1 ht with h1 | h2
      · exact Or.inl h1
      · rcases ih hcs [] true t h2 with h3 | h3
        · exact Or.inr h3
        · exact Or.inr h3

theorem splitWhitespace_blank {s : String} (h : isBlank s = true) :
    ∀ t ∈ splitWhitespace s, t = "" := by
  intro t ht
  rcases splitWhitespaceLoop_blank s.data ((isBlank_iff s).1 h) [] false t ht with h1 | h1
  · exact h1
  · exact h1

theorem isBlank_joinSpace (tokens : List String) (h : ∀ t ∈ tokens, t = "") :
    isBlank (joinSpace tokens) = true := by
  induction tokens with
  | nil => rfl
  | cons a rest ih =>
    have ha : a = "" := h a (List.mem_cons_self _ _)
    have hrest : ∀ t ∈ rest, t = "" := fun t ht => h t (List.mem_cons_of_mem _ ht)
    subst ha
    cases rest with
    | nil => rfl
    | cons b rest2 =>
      have ih2 := (isBlank_iff _).1 (ih hrest)
      rw [isBlank_iff]
      intro c hc
      simp only [joinSpace, String.data_append, List.mem_append] at hc
      rcases hc with (hc | hc) | hc
      · simp at hc
      · have : c = Char.ofNat 32 := by simpa using hc
        subst this
        rfl
      · exact ih2 c hc

theorem scoreResults_eq_nil {measure : String → Nat → ℚ} {doc : String}
    (problems : List Problem) (h : ∀ i, measure doc i ≤ 0) :
    scoreResults measure problems doc = [] := by
  unfold scoreResults
  rw [List.filterMap_eq_nil_iff]
  intro ip _
  rw [if_neg (not_lt.2 (h ip.1))]

theorem shuffleArray_nil {α : Type} (random : (i : Nat) → Fin (i + 1)) :
    shuffleArray random ([] : List α) = [] := rfl

/-- A blank query gets the empty response from the handler whenever the stop-word
filter returns some of the tokens it was given and the measure of a blank query
document is never positive. -/
theorem search_eq_nil_of_blank (removeStopwords : List String → List String)
    (measure : String → Nat → ℚ) (problems : List Problem) (random : (i : Nat) → Fin (i + 1))
    (queryParam : Option String) (sel : List JsNumber)
    (hblank : isBlank (queryParam.getD "") = true)
    (hstop : ∀ tokens : List String, removeStopwords tokens ⊆ tokens)
    (hindex : ∀ doc : String, isBlank doc = true → ∀ i : Nat, measure doc i ≤ 0) :
    search removeStopwords measure problems random queryParam sel = [] := by
  by_cases hq : toLowerCase (queryParam.getD "") = ""
  · exact search_of_empty _ _ _ _ _ _ hq
  · have hdoc : isBlank (tokenizeQuery removeStopwords (toLowerCase (queryParam.getD ""))) = true := by
      rw [toLowerCase_of_isBlank hblank]
      unfold tokenizeQuery
      apply isBlank_joinSpace
      intro t ht
      exact splitWhitespace_blank hblank t (hstop _ ht)
    have hnil := scoreResults_eq_nil problems (hindex _ hdoc)
    simp only [search, hq, if_false, hnil, List.filter_nil, ite_self, List.mergeSort_nil]
    rfl

/-- The handler answers an absent and an empty `query` with `[]` before it consults
the index, whatever the collaborators do. -/
theorem search_absent_or_empty_query (removeStopwords : List String → List String)
    (measure : String → Nat → ℚ) (problems : List Problem) (random : (i : Nat) → Fin (i + 1))
    (sel : List JsNumber) :
    search removeStopwords measure problems random none sel = [] ∧
    search removeStopwords measure problems random (some "") sel = [] :=
  ⟨search_of_empty _ _ _ _ _ _ rfl, search_of_empty _ _ _ _ _ _ rfl⟩

/-! ## Loading the snapshot -/

theorem trim_eq_empty_iff (data : String) : trim data = "" ↔ isBlank data = true := by
  rw [isBlank_iff]
  unfold trim
  rw [String.ext_iff]
  show ((data.data.dropWhile isWhiteSpace).reverse.dropWhile isWhiteSpace).reverse = [] ↔ _
  rw [List.reverse_eq_nil_iff]
  constructor
  · intro h
    have hall := List.dropWhile_eq_nil_iff.1 h
    by_cases hd : data.data.dropWhile isWhiteSpace = []
    · exact List.dropWhile_eq_nil_iff.1 hd
    · exfalso
      have hhead := List.head_dropWhile_not isWhiteSpace data.data hd
      have hmem : (data.data.dropWhile isWhiteSpace).head hd ∈
          (data.data.dropWhile isWhiteSpace).reverse :=
        List.mem_reverse.2 (List.head_mem hd)
      rw [hall _ hmem] at hhead
      exact Bool.noConfusion hhead
  · intro h
    rw [List.dropWhile_eq_nil_iff.2 h]
    rfl

theorem backup_ne_output : OUTPUT_FILE ≠ OUTPUT_FILE ++ ".bak" := by decide

/-- C10 (as amended): `loadProblems` returns an empty corpus when the snapshot is
missing, when it is blank, and when it is not valid JSON; in the last case the backup
path holds the original bytes afterwards if the rename succeeds, and the file system is
left as it was if the rename fails; an error is thrown exactly for a read failure whose
code is not `ENOENT`. -/
theorem loadProblems_recovers (jsonParse : String → Option (List Problem)) (fs : FileSystem) :
    (fs.readError = none → fs.content OUTPUT_FILE = none →
      loadProblems jsonParse fs = (Except.ok [], fs)) ∧
    (∀ data : String, fs.readError = none → fs.content OUTPUT_FILE = some data →
      isBlank data = true → loadProblems jsonParse fs = (Except.ok [], fs)) ∧
    (∀ data : String, fs.readError = none → fs.content OUTPUT_FILE = some data →
      isBlank data = false → jsonParse data = none →
        (loadProblems jsonParse fs).1 = Except.ok [] ∧
        (fs.renameFails = false →
          (loadProblems jsonParse fs).2.content (OUTPUT_FILE ++ ".bak") = some data ∧
          (loadProblems jsonParse fs).2.content OUTPUT_FILE = none) ∧
        (fs.renameFails = true → (loadProblems jsonParse fs).2 = fs)) ∧
    (∀ code : String, fs.readError = some code → code ≠ "ENOENT" →
      loadProblems jsonParse fs = (Except.error code, fs)) ∧
    (∀ code : String, (loadProblems jsonParse fs).1 = Except.error code →
      fs.readError = some code ∧ code ≠ "ENOENT") := by
  refine ⟨?_, ?_, ?_, ?_, ?_⟩
  · intro hr hc
    simp [loadProblems, readFile, hr, hc]
  · intro data hr hc hb
    have ht := (trim_eq_empty_iff data).2 hb
    simp [loadProblems, readFile, hr, hc, ht]
  · intro data hr hc hb hj
    have ht : trim data ≠ "" := by
      intro h
      rw [(trim_eq_empty_iff data).1 h] at hb
      exact Bool.noConfusion hb
    refine ⟨?_, ?_, ?_⟩
    · cases hf : fs.renameFails <;> simp [loadProblems, readFile, rename, hr, hc, ht, hj, hf]
    · intro hf
      have hne := backup_ne_output
      simp [loadProblems, readFile, rename, hr, hc, ht, hj, hf, hne]
    · intro hf
      simp [loadProblems, readFile, rename, hr, hc, ht, hj, hf]
  · intro code hr hcode
    simp [loadProblems, readFile, hr, hcode]
  · intro code h
    cases hr : fs.readError with
    | some c =>
      by_cases hc : c = "ENOENT"
      · simp [loadProblems, readFile, hr, hc] at h
      · simp [loadProblems, readFile, hr, hc] at h
        subst h
        exact ⟨rfl, hc⟩
    | none =>
      exfalso
      cases hc : fs.content OUTPUT_FILE with
      | none => simp [loadProblems, readFile, hr, hc] at h
      | some data =>
        by_cases ht : trim data = ""
        · simp [loadProblems, readFile, hr, hc, ht] at h
        · cases hj : jsonParse data with
          | some v => simp [loadProblems, readFile, hr, hc, ht, hj] at h
          | none =>
            cases hf : fs.renameFails <;>
              simp [loadProblems, readFile, rename, hr, hc, ht, hj, hf] at h

/-- Witness of C10: with a successful rename the backup holds the text of the corrupt
snapshot. -/
theorem loadProblems_recovers_witness :
    (loadProblems jsonRejects (corruptSnapshot false)).1 = Except.ok [] ∧
    (loadProblems jsonRejects (corruptSnapshot false)).2.content (OUTPUT_FILE ++ ".bak") =
      some "not json" :=
  have h := (loadProblems_recovers jsonRejects (corruptSnapshot false)).2.2.1 "not json"
    rfl (by simp [corruptSnapshot]) (by decide) rfl
  ⟨h.1, (h.2.1 rfl).1⟩

/-- C10 as stated fails when the rename fails: the load still returns the empty corpus
and nothing is stored at the backup path. -/
theorem loadProblems_backup_counterexample :
    (corruptSnapshot true).content OUTPUT_FILE = some "not json" ∧
    jsonRejects "not json" = none ∧
    (loadProblems jsonRejects (corruptSnapshot true)).1 = Except.ok [] ∧
    (loadProblems jsonRejects (corruptSnapshot true)).2.content (OUTPUT_FILE ++ ".bak") =
      none := by
  have hb : isBlank "not json" = false := by decide
  have ht : trim "not json" ≠ "" := by
    intro h
    rw [(trim_eq_empty_iff _).1 h] at hb
    exact Bool.noConfusion hb
  have hne := backup_ne_output
  refine ⟨by simp [corruptSnapshot], rfl, ?_, ?_⟩
  · simp [loadProblems, readFile, rename, corruptSnapshot, jsonRejects, ht]
  · simp [loadProblems, readFile, rename, corruptSnapshot, jsonRejects, ht, hne.symm]

/-- Witness of C2: a corpus with one url, merged with a sequence that repeats that url,
repeats a new one, and holds a null and an entry with an empty url. -/
theorem merge_urlUnique_witness :
    UrlUnique [problemWithUrl (some "a")] ∧
    UrlUnique (merge [problemWithUrl (some "a")]
      [some (problemWithUrl (some "a")), some (problemWithUrl (some "b")),
       some (problemWithUrl (some "b")), none, some (problemWithUrl (some ""))]) :=
  ⟨by simp [UrlUnique, nonEmptyUrls, truthyUrl, problemWithUrl],
   merge_urlUnique _ _ (by simp [UrlUnique, nonEmptyUrls, truthyUrl, problemWithUrl])⟩

/-- Witness of C6: one indexed problem of Elo 1200, the buckets 1 and 2 selected. -/
theorem search_results_in_selected_buckets_witness :
    [JsNumber.num 1, JsNumber.num 2] ≠ [] ∧
    ∀ r ∈ search id unitMeasure [problemWithElo (JsNumber.num 1200)] (fun i => Fin.last i)
        (some "array") [JsNumber.num 1, JsNumber.num 2],
      JsNumber.num (getDifficultyScore r.problem) ∈ [JsNumber.num 1, JsNumber.num 2] :=
  ⟨by simp,
   search_results_in_selected_buckets id unitMeasure [problemWithElo (JsNumber.num 1200)]
    (fun i => Fin.last i) (some "array") [JsNumber.num 1, JsNumber.num 2] (by simp)⟩

/-- Witness of C7: the query `array` is not the empty string, so the response is a
permutation of the scored and filtered documents. -/
theorem search_is_permutation_of_scored_witness :
    (search id unitMeasure [problemWithElo (JsNumber.num 1200)] (fun i => Fin.last i)
        (some "array") []).Perm
      (specResults unitMeasure [problemWithElo (JsNumber.num 1200)]
        (tokenizeQuery id (toLowerCase "array")) []) :=
  (search_is_permutation_of_scored id unitMeasure [problemWithElo (JsNumber.num 1200)]
    (fun i => Fin.last i) (some "array") []).2 (by decide)

theorem indexTerms_of_isBlank {doc : String} (h : isBlank doc = true) : indexTerms doc = [] := by
  unfold indexTerms
  rw [List.filter_eq_nil_iff]
  intro t ht
  simp [splitWhitespace_blank h t ht]

theorem tfidfMeasure_of_isBlank (idfWeight : Nat → Nat → ℚ) (documents : List (List String))
    {doc : String} (h : isBlank doc = true) (i : Nat) :
    tfidfMeasure idfWeight documents doc i = 0 := by
  unfold tfidfMeasure
  rw [indexTerms_of_isBlank h]
  rfl

theorem removeStopwordsBy_subset (isStopword : String → Bool) (tokens : List String) :
    removeStopwordsBy isStopword tokens ⊆ tokens := by
  intro t ht
  exact (List.mem_filter.1 ht).1

/-- C9: for every corpus, bucket selection, stop-word set, weighting and shuffle, a
query that is absent, empty or made of white space only gets the empty response (the
handler is total, so no error): the handler answers the empty string itself, and a
white-space query is split into empty tokens whose query document holds no term, so no
indexed document gets a positive measure. -/
theorem indexedSearch_blank_query_empty (isStopword : String → Bool)
    (idfWeight : Nat → Nat → ℚ) (problems : List Problem) (random : (i : Nat) → Fin (i + 1))
    (queryParam : Option String) (sel : List JsNumber)
    (hblank : isBlank (queryParam.getD "") = true) :
    indexedSearch isStopword idfWeight problems random queryParam sel = [] := by
  unfold indexedSearch
  apply search_eq_nil_of_blank _ _ _ _ _ _ hblank (removeStopwordsBy_subset isStopword)
  intro doc hdoc i
  exact le_of_eq (tfidfMeasure_of_isBlank idfWeight _ hdoc i)

/-- Witness of C9: a query of two spaces against the index of a one-problem corpus. -/
theorem indexedSearch_blank_query_empty_witness :
    isBlank ((some "  " : Option String).getD "") = true ∧
    indexedSearch sampleStopwords (fun _ _ => 1) [twoSumProblem] (fun i => Fin.last i)
      (some "  ") [] = [] :=
  ⟨by decide,
   indexedSearch_blank_query_empty sampleStopwords (fun _ _ => 1) [twoSumProblem]
    (fun i => Fin.last i) (some "  ") [] (by decide)⟩

end DsaSearch
